import Mathlib

/-!
Verification of the download orchestration and sync-diff engine of `stui`
(package `internal/download` and the S3 client in `internal/aws`).

The Go code is shallowly embedded: each Lean definition models one Go
function or one mutation of the shared progress state, translated from the
source.  Go `int`/`int64` values are modelled as `Nat`/`Int` (no claim
depends on wrap-around), Go maps as association lists with at most one
entry per key (matching Go map semantics), Go `error` values as
`Option String`, and `float64` arithmetic as `ℚ`.
-/

namespace Stui

/-- Lifecycle status of a download: Go `download.Status` with constants
`StatusPending`, `StatusInProgress`, `StatusCompleted`, `StatusFailed`,
`StatusCancelled`. -/
inductive Status where
  | pending
  | inProgress
  | completed
  | failed
  | cancelled
deriving DecidableEq, Repr

/-- A remote object as listed from S3: Go `aws.S3Object`.  `LastModified`
and `IsPrefix` are omitted: they are never read by the modelled operations
(`ListAllObjects` filters folder markers out before they reach them). -/
structure S3Object where
  key : String
  size : Int
  etag : String
deriving DecidableEq, Repr

/-- What `SyncManager.CompareFiles` can observe about one local file at a
relative path: its size (from `buildLocalFileMap`'s `os.FileInfo`) and the
result of `computeFileMD5` on its contents, `none` modelling the error
return of `computeFileMD5`. -/
structure LocalFile where
  size : Int
  md5 : Option String
deriving DecidableEq, Repr

/-- Go `download.SyncResult`. -/
structure SyncResult where
  toDownload : List S3Object
  unchanged : List S3Object
  totalBytes : Int
deriving DecidableEq, Repr

/-- Drop `pfx` from the front of `s` when it is a prefix of `s`,
character by character; `none` when it is not a prefix. -/
def dropPfx : List Char → List Char → Option (List Char)
  | [], s => some s
  | _ :: _, [] => none
  | p :: ps, c :: cs => if p = c then dropPfx ps cs else none

/-- Go `strings.TrimPrefix(s, pfx)`: `s` without the leading `pfx` when
`pfx` is a prefix of `s`, `s` unchanged otherwise. -/
def trimPfx (pfx s : String) : String :=
  match dropPfx pfx.data s.data with
  | some rest => String.mk rest
  | none => s

/-- Go `strings.Contains(s, string(c))` for a one-character separator. -/
def strContains (s : String) (c : Char) : Bool :=
  s.data.any (fun d => d = c)

/-- Lookup in the map built by `buildLocalFileMap` (relative path, slashes
normalized, one entry per path as for any Go map). -/
def lookupLocal : List (String × LocalFile) → String → Option LocalFile
  | [], _ => none
  | e :: rest, rel => if e.1 = rel then some e.2 else lookupLocal rest rel

/-- The decision the comparison loop reaches for one object. -/
inductive Classification where
  | needsTransfer
  | unchanged
deriving DecidableEq, Repr

/-- `true` exactly on `needsTransfer`. -/
def isNeedsTransfer : Classification → Bool
  | .needsTransfer => true
  | .unchanged => false

/-- One iteration of the loop in `SyncManager.CompareFiles`
(`internal/download/sync.go`, lines 49-88), as the decision it reaches for
one object: no local file, or a size mismatch, means transfer; an ETag
containing `-` skips the hash check (multipart ETags are not MD5s) and
falls through to the `File matches` branch; otherwise a hash error or hash
mismatch means transfer and a hash match means unchanged. -/
def classifyOne (locals : List (String × LocalFile)) (pfx : String) (obj : S3Object) :
    Classification :=
  match lookupLocal locals (trimPfx pfx obj.key) with
  | none => .needsTransfer
  | some li =>
    if li.size ≠ obj.size then .needsTransfer
    else if strContains obj.etag '-' then .unchanged
    else
      match li.md5 with
      | none => .needsTransfer
      | some h => if h = obj.etag then .unchanged else .needsTransfer

/-- Effect of one loop iteration on the `SyncResult` being accumulated:
a `needsTransfer` decision appends to `ToDownload` and adds the object's
size to `TotalBytes`; an `unchanged` decision appends to `Unchanged`. -/
def classifyStep (r : SyncResult) (c : Classification) (obj : S3Object) : SyncResult :=
  match c with
  | .needsTransfer =>
      { r with toDownload := r.toDownload ++ [obj], totalBytes := r.totalBytes + obj.size }
  | .unchanged => { r with unchanged := r.unchanged ++ [obj] }

/-- `SyncManager.CompareFiles` (`internal/download/sync.go`, lines 34-91)
after the two I/O steps (listing the bucket and walking the local tree)
have produced `objects` and `locals`. -/
def compareFiles (locals : List (String × LocalFile)) (pfx : String)
    (objects : List S3Object) : SyncResult :=
  objects.foldl (fun r obj => classifyStep r (classifyOne locals pfx obj) obj)
    { toDownload := [], unchanged := [], totalBytes := 0 }

theorem compareFiles_foldl (locals : List (String × LocalFile)) (pfx : String)
    (objects : List S3Object) (r : SyncResult) :
    objects.foldl (fun r obj => classifyStep r (classifyOne locals pfx obj) obj) r
      = { toDownload :=
            r.toDownload ++ objects.filter (fun o => isNeedsTransfer (classifyOne locals pfx o)),
          unchanged :=
            r.unchanged ++ objects.filter (fun o => !(isNeedsTransfer (classifyOne locals pfx o))),
          totalBytes :=
            r.totalBytes + ((objects.filter
              (fun o => isNeedsTransfer (classifyOne locals pfx o))).map S3Object.size).sum } := by
  induction objects generalizing r with
  | nil => simp
  | cons o rest ih =>
    simp only [List.foldl_cons, List.filter_cons]
    cases hc : classifyOne locals pfx o with
    | needsTransfer =>
      rw [ih]
      simp [classifyStep, hc, isNeedsTransfer, List.append_assoc, add_assoc]
    | unchanged =>
      rw [ih]
      simp [classifyStep, hc, isNeedsTransfer, List.append_assoc]

theorem compareFiles_toDownload (locals : List (String × LocalFile)) (pfx : String)
    (objects : List S3Object) :
    (compareFiles locals pfx objects).toDownload
      = objects.filter (fun o => isNeedsTransfer (classifyOne locals pfx o)) := by
  rw [compareFiles, compareFiles_foldl]
  simp

theorem compareFiles_unchanged (locals : List (String × LocalFile)) (pfx : String)
    (objects : List S3Object) :
    (compareFiles locals pfx objects).unchanged
      = objects.filter (fun o => !(isNeedsTransfer (classifyOne locals pfx o))) := by
  rw [compareFiles, compareFiles_foldl]
  simp

theorem mem_toDownload_iff (locals : List (String × LocalFile)) (pfx : String)
    (objects : List S3Object) (obj : S3Object) :
    obj ∈ (compareFiles locals pfx objects).toDownload
      ↔ obj ∈ objects ∧ classifyOne locals pfx obj = .needsTransfer := by
  rw [compareFiles_toDownload, List.mem_filter]
  constructor
  · rintro ⟨h1, h2⟩
    refine ⟨h1, ?_⟩
    cases h : classifyOne locals pfx obj with
    | needsTransfer => rfl
    | unchanged => rw [h] at h2; simp [isNeedsTransfer] at h2
  · rintro ⟨h1, h2⟩
    exact ⟨h1, by rw [h2]; rfl⟩

theorem mem_unchanged_iff (locals : List (String × LocalFile)) (pfx : String)
    (objects : List S3Object) (obj : S3Object) :
    obj ∈ (compareFiles locals pfx objects).unchanged
      ↔ obj ∈ objects ∧ classifyOne locals pfx obj = .unchanged := by
  rw [compareFiles_unchanged, List.mem_filter]
  constructor
  · rintro ⟨h1, h2⟩
    refine ⟨h1, ?_⟩
    cases h : classifyOne locals pfx obj with
    | needsTransfer => rw [h] at h2; simp [isNeedsTransfer] at h2
    | unchanged => rfl
  · rintro ⟨h1, h2⟩
    exact ⟨h1, by rw [h2]; rfl⟩

/-- Per-file progress: Go `download.FileProgress`.  The two timestamps are
omitted: no modelled claim reads them. -/
structure FileProgress where
  key : String
  localPath : String
  size : Int
  downloaded : Int
  status : Status
  error : Option String
deriving DecidableEq, Repr

/-- Aggregate session progress: Go `download.Progress`.  `StartedAt` is
omitted (never read by the claims); the `Files` map is an association list
with at most one entry per key. -/
structure Progress where
  totalFiles : Nat
  completedFiles : Nat
  failedFiles : Nat
  totalBytes : Int
  downloadedBytes : Int
  currentFile : String
  files : List (String × FileProgress)
  status : Status
deriving DecidableEq, Repr

/-- `Progress.PercentComplete` (manager part of the source), Go `float64`
arithmetic modelled over `ℚ`. -/
def Progress.percentComplete (p : Progress) : ℚ :=
  if p.totalBytes = 0 then 0
  else (p.downloadedBytes : ℚ) / (p.totalBytes : ℚ) * 100

/-- Go map lookup `m.progress.Files[key]`. -/
def lookupFP : List (String × FileProgress) → String → Option FileProgress
  | [], _ => none
  | e :: rest, k => if e.1 = k then some e.2 else lookupFP rest k

/-- Go map update of the single entry at `k` (no entry: no change, matching
the `if fp, ok := m.progress.Files[key]; ok` guards in the source). -/
def updateFile : List (String × FileProgress) → String → (FileProgress → FileProgress) →
    List (String × FileProgress)
  | [], _, _ => []
  | e :: rest, k, f => if e.1 = k then (e.1, f e.2) :: rest else e :: updateFile rest k f

/-- The recomputation `for _, fp := range m.progress.Files { total += fp.Downloaded }`
performed by the byte-progress callback in `downloadWithWorkers`. -/
def sumDownloaded (files : List (String × FileProgress)) : Int :=
  (files.map (fun e => e.2.downloaded)).sum

/-- The `Downloaded` count currently recorded for `k` (`0` when absent). -/
def downloadedOf (files : List (String × FileProgress)) (k : String) : Int :=
  match lookupFP files k with
  | some fp => fp.downloaded
  | none => 0

theorem lookupFP_updateFile (files : List (String × FileProgress)) (k : String)
    (f : FileProgress → FileProgress) :
    lookupFP (updateFile files k f) k = (lookupFP files k).map f := by
  induction files with
  | nil => rfl
  | cons e rest ih =>
    by_cases h : e.1 = k
    · simp [updateFile, lookupFP, h]
    · simp [updateFile, lookupFP, h, ih]

theorem lookupFP_updateFile_ne (files : List (String × FileProgress)) (k k' : String)
    (f : FileProgress → FileProgress) (h : k' ≠ k) :
    lookupFP (updateFile files k f) k' = lookupFP files k' := by
  induction files with
  | nil => rfl
  | cons e rest ih =>
    by_cases he : e.1 = k
    · have h2 : k ≠ k' := Ne.symm h
      simp [updateFile, lookupFP, he, h2]
    · by_cases he' : e.1 = k'
      · simp [updateFile, lookupFP, he, he', h]
      · simp [updateFile, lookupFP, he, he', ih]

/-- One mutation of the shared progress state performed (under
`progressMu`) by a worker in `Manager.downloadWithWorkers`:

* `start k` — the worker picked the job for `k` (source lines 641-649):
  `CurrentFile` is set and the file moves to `InProgress`;
* `bytes k n` — the per-byte progress callback (lines 671-684): the file's
  `Downloaded` is set to `n` and `DownloadedBytes` is recomputed by summing
  every entry;
* `finishOk k sz` — the transfer call returned `nil` (lines 698-706):
  the completed-files counter is incremented, the file is `Completed` and
  its `Downloaded` set to the job's size `sz`;
* `finishErr k e ctxCancelled` — the transfer call returned an error
  (lines 686-697): the failed-files counter is incremented even when the
  cause is cancellation; the file becomes `Cancelled` when the session
  context is done and `Failed` (with the error recorded) otherwise;
* `pathFail k e` — the `security.SafePath` fallback failed (lines 651-666):
  the failed-files counter is incremented and the file becomes `Failed`. -/
inductive PoolEvent where
  | start (k : String)
  | bytes (k : String) (n : Int)
  | finishOk (k : String) (sz : Int)
  | finishErr (k : String) (e : String) (ctxCancelled : Bool)
  | pathFail (k : String) (e : String)
deriving DecidableEq, Repr

/-- Apply one `PoolEvent` to the progress state, mirroring the critical
sections of `Manager.downloadWithWorkers`. -/
def applyEvent (p : Progress) : PoolEvent → Progress
  | .start k =>
      { p with currentFile := k,
               files := updateFile p.files k (fun fp => { fp with status := .inProgress }) }
  | .bytes k n =>
      let files := updateFile p.files k (fun fp => { fp with downloaded := n })
      { p with files := files, downloadedBytes := sumDownloaded files }
  | .finishOk k sz =>
      { p with completedFiles := p.completedFiles + 1,
               files := updateFile p.files k
                 (fun fp => { fp with status := .completed, downloaded := sz }) }
  | .finishErr k e ctxCancelled =>
      { p with failedFiles := p.failedFiles + 1,
               files := updateFile p.files k (fun fp =>
                 if ctxCancelled then { fp with status := .cancelled }
                 else { fp with status := .failed, error := some e }) }
  | .pathFail k e =>
      { p with failedFiles := p.failedFiles + 1,
               files := updateFile p.files k
                 (fun fp => { fp with status := .failed, error := some e }) }

/-- A whole interleaving of worker critical sections, applied in the order
in which the mutex admitted them. -/
def runEvents (p : Progress) (t : List PoolEvent) : Progress :=
  t.foldl applyEvent p

/-- The key of a terminal event (a worker reports exactly one terminal
status per job it pulled). -/
def eventTerminalKey : PoolEvent → Option String
  | .finishOk k _ => some k
  | .finishErr k _ _ => some k
  | .pathFail k _ => some k
  | _ => none

/-- Keys of the terminal events of a trace, in order. -/
def terminalKeys (t : List PoolEvent) : List String :=
  t.filterMap eventTerminalKey

/-- Progress as initialized by `Manager.DownloadPrefix` (source lines
497-523) before the worker pool starts: one `Pending` entry per object,
`TotalBytes` the sum of the sizes.  `paths` stands for the local path that
`security.SafePath` computed for each key. -/
def initProgress (objects : List S3Object) (paths : String → String) : Progress :=
  { totalFiles := objects.length
    completedFiles := 0
    failedFiles := 0
    totalBytes := (objects.map S3Object.size).sum
    downloadedBytes := 0
    currentFile := ""
    files := objects.map (fun o =>
      (o.key, { key := o.key, localPath := paths o.key, size := o.size, downloaded := 0,
                status := .pending, error := none }))
    status := .inProgress }

/-- Result of one job's injected transfer call (`Client.DownloadFile`):
`ok`, or an error whose `ctxCancelled` flag records whether the session
context was already done when the worker inspected `ctx.Err()`. -/
inductive JobOutcome where
  | ok
  | err (msg : String) (ctxCancelled : Bool)
deriving DecidableEq, Repr

/-- Processing of one dispatched job by a worker, with no byte callbacks:
the start critical section followed by the terminal one. -/
def runJob (p : Progress) (obj : S3Object) (oc : JobOutcome) : Progress :=
  match oc with
  | .ok => applyEvent (applyEvent p (.start obj.key)) (.finishOk obj.key obj.size)
  | .err e c => applyEvent (applyEvent p (.start obj.key)) (.finishErr obj.key e c)

/-- `Manager.downloadWithWorkers` (source lines 620-728) under the schedule
the cancellation scenario stipulates: jobs are dispatched in order;
`cancelAfter = some n` means the session context is cancelled after the
first `n` jobs have finished and before the send loop hands out job `n+1`
(lines 714-723: the `select` observes `ctx.Done()`, closes the channel,
waits for the workers and returns `ctx.Err()`), so the remaining jobs
receive no progress mutations at all.  The returned `Bool` is whether the
call returned a non-`nil` error, which happens exactly when cancellation
interrupted the send loop while jobs remained. -/
def poolRun (p : Progress) (objects : List S3Object) (outcome : S3Object → JobOutcome)
    (cancelAfter : Option Nat) : Progress × Bool :=
  match cancelAfter with
  | none => (objects.foldl (fun q o => runJob q o (outcome o)) p, false)
  | some n =>
      ((objects.take n).foldl (fun q o => runJob q o (outcome o)) p,
        decide (n < objects.length))

/-- The epilogue of `Manager.DownloadPrefix` (source lines 530-538): the
final session status is `Cancelled` when the pool returned an error with
the context done, else `Failed` when any file failed, else `Completed`. -/
def sessionEpilogue (p : Progress) (errReturned ctxDone : Bool) : Progress :=
  if errReturned && ctxDone then { p with status := .cancelled }
  else if p.failedFiles > 0 then { p with status := .failed }
  else { p with status := .completed }

/-- `Manager.DownloadPrefix` from progress initialization onwards (the
listing call already yielded `objects`): init, pool, epilogue.  The
session context is done at the end exactly when a cancellation was
signalled, i.e. when `cancelAfter` is set. -/
def downloadPrefixRun (objects : List S3Object) (paths : String → String)
    (outcome : S3Object → JobOutcome) (cancelAfter : Option Nat) : Progress × Bool :=
  let r := poolRun (initProgress objects paths) objects outcome cancelAfter
  (sessionEpilogue r.1 r.2 cancelAfter.isSome, r.2)

/-- Progress as initialized by `Manager.DownloadFile` (source lines
426-443): a single-file session already `InProgress`. -/
def mgrInit (key localPath : String) (size : Int) : Progress :=
  { totalFiles := 1
    completedFiles := 0
    failedFiles := 0
    totalBytes := size
    downloadedBytes := 0
    currentFile := key
    files := [(key, { key := key, localPath := localPath, size := size, downloaded := 0,
                      status := .inProgress, error := none })]
    status := .inProgress }

/-- The byte-progress callback of `Manager.DownloadFile` (source lines
447-455): for a single-file session `DownloadedBytes` is assigned the
reported value directly and the file's `Downloaded` is updated. -/
def mgrApplyCb (key : String) (q : Progress) (n : Int) : Progress :=
  { q with downloadedBytes := n,
           files := updateFile q.files key (fun fp => { fp with downloaded := n }) }

/-- The terminal mutation of `Manager.DownloadFile` (source lines 457-474):
on a `nil` error the session and file complete and `CompletedFiles` is set
to `1`; on an error with the context done everything is `Cancelled` with
no counter change; otherwise everything is `Failed`, the error is recorded
and `FailedFiles` is set to `1`. -/
def mgrFinal (key : String) (res : Option (String × Bool)) (q : Progress) : Progress :=
  match res with
  | none =>
      { q with status := .completed, completedFiles := 1,
               files := updateFile q.files key (fun fp => { fp with status := .completed }) }
  | some (e, ctxCancelled) =>
      if ctxCancelled then
        { q with status := .cancelled,
                 files := updateFile q.files key (fun fp => { fp with status := .cancelled }) }
      else
        { q with status := .failed, failedFiles := 1,
                 files := updateFile q.files key
                   (fun fp => { fp with status := .failed, error := some e }) }

/-- Every snapshot `Manager.DownloadFile` publishes, in order: the state
after initialization, after each byte callback, and after the terminal
mutation.  `cbs` is the sequence of `BytesDownloaded` values reported and
`res` the transfer call's result. -/
def managerDownloadFileStates (key localPath : String) (size : Int) (cbs : List Int)
    (res : Option (String × Bool)) : List Progress :=
  List.scanl (mgrApplyCb key) (mgrInit key localPath size) cbs
    ++ [mgrFinal key res (cbs.foldl (mgrApplyCb key) (mgrInit key localPath size))]

/-- The local filesystem as `Client.DownloadFile` touches it: a map from
path to the number of bytes currently on disk at that path. -/
def fsSet : List (String × Int) → String → Int → List (String × Int)
  | [], path, n => [(path, n)]
  | e :: rest, path, n => if e.1 = path then (e.1, n) :: rest else e :: fsSet rest path n

/-- Go `os.Remove(localPath)`. -/
def fsRemove : List (String × Int) → String → List (String × Int)
  | [], _ => []
  | e :: rest, path => if e.1 = path then fsRemove rest path else e :: fsRemove rest path

/-- Whether a file exists at `path`. -/
def fsExists : List (String × Int) → String → Bool
  | [], _ => false
  | e :: rest, path => if e.1 = path then true else fsExists rest path

/-- Result of the `downloader.Download` call inside `Client.DownloadFile`:
success, or an error after `bytesWritten` bytes were already written
through the `ProgressWriter` (context cancellation surfaces here as an
error too). -/
inductive TransferResult where
  | ok (size : Int)
  | err (msg : String) (bytesWritten : Int)
deriving DecidableEq, Repr

/-- `Client.DownloadFile` (aws part of the source, lines 215-259) as its
effect on the local filesystem: `os.Create` truncates the file into
existence, the transfer writes bytes, and on any transfer error —
cancellation included — `os.Remove(localPath)` deletes the partial file
(`// Clean up on failure`) and the error is returned. -/
def clientDownloadFile (fs : List (String × Int)) (localPath : String)
    (res : TransferResult) : List (String × Int) × Option String :=
  let created := fsSet fs localPath 0
  match res with
  | .ok size => (fsSet created localPath size, none)
  | .err msg bytesWritten =>
      (fsRemove (fsSet created localPath bytesWritten) localPath, some msg)

/-- Go map set used to model one successful download refreshing the local
tree: afterwards the file at the object's relative path has the object's
size and hashes to the object's true content hash. -/
def mapSetLocal : List (String × LocalFile) → String → LocalFile → List (String × LocalFile)
  | [], rel, lf => [(rel, lf)]
  | e :: rest, rel, lf => if e.1 = rel then (e.1, lf) :: rest else e :: mapSetLocal rest rel lf

/-- Effect on the comparison's view of the local tree of the worker pool
successfully downloading every object in `objs`: each download leaves a
file of the object's size at the object's relative path whose contents
hash to `h o`, the object's true content MD5. -/
def applyDownloads (h : S3Object → String) (pfx : String)
    (locals : List (String × LocalFile)) (objs : List S3Object) :
    List (String × LocalFile) :=
  objs.foldl (fun m o => mapSetLocal m (trimPfx pfx o.key) { size := o.size, md5 := some (h o) })
    locals

/-- Outcome of `SyncManager.Sync` (sync.go lines 150-185) as far as the
claims observe it: the returned error, the progress state it installed in
the manager (`none` when the early `return nil` fires before any progress
is initialized), and the jobs handed to `downloadWithWorkers`. -/
structure SyncRun where
  error : Option String
  progressInit : Option Progress
  jobs : List S3Object
deriving DecidableEq, Repr

/-- Progress as initialized by `SyncManager.Sync` (sync.go lines 161-181):
one `Pending` entry per file to download; `filepath.Join` is modelled as
concatenation with a separator (path cleaning is irrelevant here). -/
def syncInitProgress (pfx localDir : String) (r : SyncResult) : Progress :=
  { totalFiles := r.toDownload.length
    completedFiles := 0
    failedFiles := 0
    totalBytes := r.totalBytes
    downloadedBytes := 0
    currentFile := ""
    files := r.toDownload.map (fun o =>
      (o.key, { key := o.key, localPath := localDir ++ "/" ++ trimPfx pfx o.key,
                size := o.size, downloaded := 0, status := .pending, error := none }))
    status := .inProgress }

/-- `SyncManager.Sync` (sync.go lines 150-185) after `CompareFiles`'s two
I/O steps produced `objects` and `locals`: when nothing needs downloading
it returns `nil` at once, with no progress initialization and no jobs run;
otherwise it initializes progress over the `ToDownload` subset and runs
the worker pool over exactly that subset. -/
def syncRun (locals : List (String × LocalFile)) (pfx localDir : String)
    (objects : List S3Object) (outcome : S3Object → JobOutcome)
    (cancelAfter : Option Nat) : SyncRun :=
  let r := compareFiles locals pfx objects
  if r.toDownload.length = 0 then { error := none, progressInit := none, jobs := [] }
  else
    let p0 := syncInitProgress pfx localDir r
    let res := poolRun p0 r.toDownload outcome cancelAfter
    { error := if res.2 then some "context canceled" else none,
      progressInit := some p0,
      jobs := r.toDownload }

/-- C1, counterexample: a remote object whose ETag contains the multipart
separator `-` and whose size matches the local file is NOT placed in
`ToDownload` by `CompareFiles`; it lands in `Unchanged` (the code skips
the hash check for multipart ETags and falls through to the
`File matches` branch), with nothing added to `TotalBytes`. -/
theorem claim1_counterexample :
    compareFiles [("b.txt", LocalFile.mk 100 (some "aaa"))] "a/"
        [S3Object.mk "a/b.txt" 100 "d41d8cd9-3"]
      = SyncResult.mk [] [S3Object.mk "a/b.txt" 100 "d41d8cd9-3"] 0 := by
  decide

/-- C1, amended: for every remote object whose size equals the existing
local file's size and whose digest contains the multipart separator `-`,
`CompareFiles` skips the hash check and classifies the object as
UNCHANGED on the strength of the size match alone — it is placed in the
`Unchanged` set and never in `ToDownload`, regardless of the local hash. -/
theorem claim1_multipart_size_match_is_unchanged
    (locals : List (String × LocalFile)) (pfx : String) (objects : List S3Object)
    (obj : S3Object) (li : LocalFile)
    (hmem : obj ∈ objects)
    (hloc : lookupLocal locals (trimPfx pfx obj.key) = some li)
    (hsize : li.size = obj.size)
    (hdash : strContains obj.etag '-' = true) :
    obj ∈ (compareFiles locals pfx objects).unchanged
    ∧ obj ∉ (compareFiles locals pfx objects).toDownload := by
  have hc : classifyOne locals pfx obj = .unchanged := by
    simp [classifyOne, hloc, hsize, hdash]
  refine ⟨(mem_unchanged_iff locals pfx objects obj).mpr ⟨hmem, hc⟩, ?_⟩
  intro hmem2
  have h2 := ((mem_toDownload_iff locals pfx objects obj).mp hmem2).2
  rw [hc] at h2
  exact absurd h2 (by simp)

/-- C1, witness for the amended theorem. -/
theorem claim1_witness :
    S3Object.mk "a/b.txt" 100 "d41d8cd9-3"
        ∈ (compareFiles [("b.txt", LocalFile.mk 100 (some "ffff"))] "a/"
            [S3Object.mk "a/b.txt" 100 "d41d8cd9-3"]).unchanged
    ∧ S3Object.mk "a/b.txt" 100 "d41d8cd9-3"
        ∉ (compareFiles [("b.txt", LocalFile.mk 100 (some "ffff"))] "a/"
            [S3Object.mk "a/b.txt" 100 "d41d8cd9-3"]).toDownload :=
  claim1_multipart_size_match_is_unchanged
    [("b.txt", LocalFile.mk 100 (some "ffff"))] "a/"
    [S3Object.mk "a/b.txt" 100 "d41d8cd9-3"]
    (S3Object.mk "a/b.txt" 100 "d41d8cd9-3") (LocalFile.mk 100 (some "ffff"))
    (by decide) (by decide) (by decide) (by decide)

/-- C4: for a remote object whose digest contains no `-`, `CompareFiles`
classifies it as needing transfer when no local file exists at the
resolved relative path, when the local size differs, when the local MD5
computation fails, or when the computed MD5 differs from the digest as an
exact string; and as unchanged when the sizes match and the MD5 equals
the digest exactly. -/
theorem claim4_single_part_hash_comparison
    (locals : List (String × LocalFile)) (pfx : String) (objects : List S3Object)
    (obj : S3Object) (hmem : obj ∈ objects)
    (hdash : strContains obj.etag '-' = false) :
    (lookupLocal locals (trimPfx pfx obj.key) = none →
        obj ∈ (compareFiles locals pfx objects).toDownload)
    ∧ (∀ li : LocalFile, lookupLocal locals (trimPfx pfx obj.key) = some li →
        li.size ≠ obj.size → obj ∈ (compareFiles locals pfx objects).toDownload)
    ∧ (∀ li : LocalFile, lookupLocal locals (trimPfx pfx obj.key) = some li →
        li.size = obj.size → li.md5 = none →
        obj ∈ (compareFiles locals pfx objects).toDownload)
    ∧ (∀ (li : LocalFile) (s : String), lookupLocal locals (trimPfx pfx obj.key) = some li →
        li.size = obj.size → li.md5 = some s → s ≠ obj.etag →
        obj ∈ (compareFiles locals pfx objects).toDownload)
    ∧ (∀ (li : LocalFile) (s : String), lookupLocal locals (trimPfx pfx obj.key) = some li →
        li.size = obj.size → li.md5 = some s → s = obj.etag →
        obj ∈ (compareFiles locals pfx objects).unchanged) := by
  refine ⟨?_, ?_, ?_, ?_, ?_⟩
  · intro hnone
    exact (mem_toDownload_iff locals pfx objects obj).mpr
      ⟨hmem, by simp [classifyOne, hnone]⟩
  · intro li hloc hsz
    exact (mem_toDownload_iff locals pfx objects obj).mpr
      ⟨hmem, by simp [classifyOne, hloc, hsz]⟩
  · intro li hloc hsz hmd
    exact (mem_toDownload_iff locals pfx objects obj).mpr
      ⟨hmem, by simp [classifyOne, hloc, hsz, hdash, hmd]⟩
  · intro li s hloc hsz hmd hne
    exact (mem_toDownload_iff locals pfx objects obj).mpr
      ⟨hmem, by simp [classifyOne, hloc, hsz, hdash, hmd, hne]⟩
  · intro li s hloc hsz hmd heq
    exact (mem_unchanged_iff locals pfx objects obj).mpr
      ⟨hmem, by simp [classifyOne, hloc, hsz, hdash, hmd, heq]⟩

/-- C4, witness. -/
theorem claim4_witness :
    S3Object.mk "a/b.txt" 100 "d41d8cd98f00b204e9800998ecf8427e"
        ∈ (compareFiles [("b.txt", LocalFile.mk 100 (some "d41d8cd98f00b204e9800998ecf8427e"))]
            "a/" [S3Object.mk "a/b.txt" 100 "d41d8cd98f00b204e9800998ecf8427e"]).unchanged :=
  (claim4_single_part_hash_comparison
      [("b.txt", LocalFile.mk 100 (some "d41d8cd98f00b204e9800998ecf8427e"))] "a/"
      [S3Object.mk "a/b.txt" 100 "d41d8cd98f00b204e9800998ecf8427e"]
      (S3Object.mk "a/b.txt" 100 "d41d8cd98f00b204e9800998ecf8427e")
      (by decide) (by decide)).2.2.2.2
    (LocalFile.mk 100 (some "d41d8cd98f00b204e9800998ecf8427e"))
    "d41d8cd98f00b204e9800998ecf8427e" (by decide) (by decide) (by decide) (by decide)

/-- C5: every remote object handled by the comparison loop is classified
into `ToDownload` or `Unchanged`; none is silently omitted from both sets.
(The path resolution `CompareFiles` performs — `strings.TrimPrefix`
followed by `filepath.Join` — is infallible, so no object is ever dropped
by an erroring safety check.) -/
theorem claim5_every_object_classified
    (locals : List (String × LocalFile)) (pfx : String) (objects : List S3Object)
    (obj : S3Object) (hmem : obj ∈ objects) :
    obj ∈ (compareFiles locals pfx objects).toDownload
    ∨ obj ∈ (compareFiles locals pfx objects).unchanged := by
  cases hc : classifyOne locals pfx obj with
  | needsTransfer =>
      exact Or.inl ((mem_toDownload_iff locals pfx objects obj).mpr ⟨hmem, hc⟩)
  | unchanged =>
      exact Or.inr ((mem_unchanged_iff locals pfx objects obj).mpr ⟨hmem, hc⟩)

/-- C5, witness. -/
theorem claim5_witness :
    S3Object.mk "p/x" 7 "h1" ∈ (compareFiles [] "p/" [S3Object.mk "p/x" 7 "h1"]).toDownload
    ∨ S3Object.mk "p/x" 7 "h1" ∈ (compareFiles [] "p/" [S3Object.mk "p/x" 7 "h1"]).unchanged :=
  claim5_every_object_classified [] "p/" [S3Object.mk "p/x" 7 "h1"]
    (S3Object.mk "p/x" 7 "h1") (by decide)

/-- C10: `Progress.PercentComplete` returns `0` whenever `TotalBytes = 0`
and otherwise `DownloadedBytes / TotalBytes * 100`; the division is
guarded by the zero test, so rendering an empty or not-yet-initialized
session never divides by zero. -/
theorem claim10_percent_complete_guarded (p : Progress) :
    (p.totalBytes = 0 → p.percentComplete = 0)
    ∧ (p.totalBytes ≠ 0 →
        p.percentComplete = (p.downloadedBytes : ℚ) / (p.totalBytes : ℚ) * 100) := by
  constructor
  · intro h
    simp [Progress.percentComplete, h]
  · intro h
    simp [Progress.percentComplete, h]

/-- C10, witness. -/
theorem claim10_witness :
    (mgrInit "k" "d/k" 0).percentComplete = 0
    ∧ (mgrInit "k" "d/k" 200).percentComplete
        = ((mgrInit "k" "d/k" 200).downloadedBytes : ℚ)
            / ((mgrInit "k" "d/k" 200).totalBytes : ℚ) * 100 :=
  ⟨(claim10_percent_complete_guarded (mgrInit "k" "d/k" 0)).1 rfl,
   (claim10_percent_complete_guarded (mgrInit "k" "d/k" 200)).2 (by decide)⟩

theorem fsExists_fsRemove (fs : List (String × Int)) (path : String) :
    fsExists (fsRemove fs path) path = false := by
  induction fs with
  | nil => rfl
  | cons e rest ih =>
    by_cases h : e.1 = path
    · simp [fsRemove, h, ih]
    · simp [fsRemove, fsExists, h, ih]

/-- C2, counterexample: when the byte-transfer call fails while in flight
(cancellation surfaces as exactly such an error), `Client.DownloadFile`
runs `os.Remove(localPath)` — the partially written local file is NOT
left on disk. -/
theorem claim2_counterexample :
    fsExists (clientDownloadFile [] "dest/f.bin"
        (TransferResult.err "context canceled" 42)).1 "dest/f.bin" = false := by
  decide

/-- C2, amended: if cancellation is signaled while a job's byte-transfer
call is in flight, the job's `FileProgress` reaches the terminal status
`Cancelled` (not `Failed`); but the partially written local file is
deleted by `Client.DownloadFile`'s failure cleanup, not left on disk. -/
theorem claim2_cancelled_inflight_file_removed
    (p : Progress) (obj : S3Object) (e : String) (fp : FileProgress)
    (fs : List (String × Int)) (localPath msg : String) (n : Int)
    (hf : lookupFP p.files obj.key = some fp) :
    lookupFP (runJob p obj (JobOutcome.err e true)).files obj.key
        = some { fp with status := Status.cancelled }
    ∧ fsExists (clientDownloadFile fs localPath (TransferResult.err msg n)).1 localPath
        = false := by
  constructor
  · simp [runJob, applyEvent, lookupFP_updateFile, hf]
  · simp [clientDownloadFile, fsExists_fsRemove]

/-- C2, witness. -/
theorem claim2_witness :
    lookupFP (runJob (mgrInit "k" "d/k" 5) (S3Object.mk "k" 5 "e")
        (JobOutcome.err "context canceled" true)).files "k"
      = some (FileProgress.mk "k" "d/k" 5 0 Status.cancelled none)
    ∧ fsExists (clientDownloadFile [] "d/k"
        (TransferResult.err "context canceled" 42)).1 "d/k" = false :=
  claim2_cancelled_inflight_file_removed (mgrInit "k" "d/k" 5) (S3Object.mk "k" 5 "e")
    "context canceled" (FileProgress.mk "k" "d/k" 5 0 Status.inProgress none)
    [] "d/k" "context canceled" 42 (by decide)

/-- C3, counterexample: in the 10-job session cancelled after exactly one
job completes and before the rest are dispatched, an undispatched job
("k2") does NOT reach the terminal status `Cancelled`: its `FileProgress`
is never touched again, so it stays `Pending`. -/
theorem claim3_counterexample :
    (lookupFP (downloadPrefixRun
        [S3Object.mk "k1" 1 "e1", S3Object.mk "k2" 1 "e2", S3Object.mk "k3" 1 "e3",
         S3Object.mk "k4" 1 "e4", S3Object.mk "k5" 1 "e5", S3Object.mk "k6" 1 "e6",
         S3Object.mk "k7" 1 "e7", S3Object.mk "k8" 1 "e8", S3Object.mk "k9" 1 "e9",
         S3Object.mk "k10" 1 "e10"]
        (fun k => k) (fun _ => JobOutcome.ok) (some 1)).1.files "k2").map
      FileProgress.status ≠ some Status.cancelled := by
  decide

/-- The ten-job cancellation scenario of the spec, under the stipulated
schedule: cancellation observed after exactly one job completed, before
any further dispatch. -/
def cancelScenarioRun : Progress × Bool :=
  downloadPrefixRun
    [S3Object.mk "k1" 1 "e1", S3Object.mk "k2" 1 "e2", S3Object.mk "k3" 1 "e3",
     S3Object.mk "k4" 1 "e4", S3Object.mk "k5" 1 "e5", S3Object.mk "k6" 1 "e6",
     S3Object.mk "k7" 1 "e7", S3Object.mk "k8" 1 "e8", S3Object.mk "k9" 1 "e9",
     S3Object.mk "k10" 1 "e10"]
    (fun k => k) (fun _ => JobOutcome.ok) (some 1)

/-- C3, amended: for a session of 10 pending jobs cancelled after exactly
one job completes and before the remaining 9 are dispatched, the final
snapshot has `completedFiles = 1` and overall status `Cancelled`, and each
of the 9 undispatched jobs keeps the non-terminal status `Pending` (so
none of them is ever `Completed`); no file fails. -/
theorem claim3_cancellation_scenario :
    cancelScenarioRun.1.completedFiles = 1 ∧ cancelScenarioRun.1.failedFiles = 0
    ∧ cancelScenarioRun.1.status = Status.cancelled
    ∧ cancelScenarioRun.1.files.map (fun e => e.2.status)
        = [Status.completed, Status.pending, Status.pending, Status.pending,
           Status.pending, Status.pending, Status.pending, Status.pending,
           Status.pending, Status.pending]
    ∧ cancelScenarioRun.2 = true := by
  decide

/-- The three-job partial-failure scenario of the spec: job 2's transfer
call always fails with `TransferError`, the others succeed. -/
def partialFailureRun : Progress × Bool :=
  downloadPrefixRun
    [S3Object.mk "job1key" 10 "e1", S3Object.mk "job2key" 20 "e2",
     S3Object.mk "job3key" 30 "e3"]
    (fun k => k)
    (fun o => if o.key = "job2key" then JobOutcome.err "TransferError" false
              else JobOutcome.ok)
    none

/-- C6: in a session of 3 jobs where exactly job 2's transfer call fails
with a transfer error, the siblings still run to completion, and the
final snapshot has `completedFiles = 2`, `failedFiles = 1`, overall
status `Failed`, a non-nil recorded error for the failing key, and no
aggregate error from the pool. -/
theorem claim6_partial_failure_scenario :
    partialFailureRun.1.completedFiles = 2 ∧ partialFailureRun.1.failedFiles = 1
    ∧ partialFailureRun.1.status = Status.failed
    ∧ (lookupFP partialFailureRun.1.files "job2key").map FileProgress.error
        = some (some "TransferError")
    ∧ (lookupFP partialFailureRun.1.files "job2key").map FileProgress.status
        = some Status.failed
    ∧ (lookupFP partialFailureRun.1.files "job1key").map FileProgress.status
        = some Status.completed
    ∧ (lookupFP partialFailureRun.1.files "job3key").map FileProgress.status
        = some Status.completed
    ∧ partialFailureRun.2 = false := by
  decide

theorem applyEvent_totalFiles (p : Progress) (e : PoolEvent) :
    (applyEvent p e).totalFiles = p.totalFiles := by
  cases e <;> rfl

theorem runEvents_totalFiles (p : Progress) (t : List PoolEvent) :
    (runEvents p t).totalFiles = p.totalFiles := by
  induction t generalizing p with
  | nil => rfl
  | cons e t ih => exact (ih (applyEvent p e)).trans (applyEvent_totalFiles p e)

theorem runEvents_counters (p : Progress) (t : List PoolEvent) :
    (runEvents p t).completedFiles + (runEvents p t).failedFiles
      = p.completedFiles + p.failedFiles + (terminalKeys t).length := by
  induction t generalizing p with
  | nil => simp [runEvents, terminalKeys]
  | cons e t ih =>
    have h1 : runEvents p (e :: t) = runEvents (applyEvent p e) t := rfl
    rw [h1, ih (applyEvent p e)]
    cases e <;>
      simp [applyEvent, terminalKeys, List.filterMap_cons, eventTerminalKey] <;> omega

theorem terminalKeys_append (t1 t2 : List PoolEvent) :
    terminalKeys (t1 ++ t2) = terminalKeys t1 ++ terminalKeys t2 := by
  simp [terminalKeys, List.filterMap_append]

theorem mgrScanl_counters (key : String) (q0 : Progress) (cbs : List Int) (q : Progress)
    (hq : q ∈ List.scanl (mgrApplyCb key) q0 cbs) :
    q.completedFiles = q0.completedFiles ∧ q.failedFiles = q0.failedFiles
    ∧ q.totalFiles = q0.totalFiles := by
  induction cbs generalizing q0 with
  | nil =>
    rw [List.scanl] at hq
    simp at hq
    subst hq
    exact ⟨rfl, rfl, rfl⟩
  | cons c cs ih =>
    rw [List.scanl] at hq
    rcases List.mem_cons.mp hq with h | h
    · subst h; exact ⟨rfl, rfl, rfl⟩
    · simpa [mgrApplyCb] using ih (mgrApplyCb key q0 c) h

theorem mgrFoldl_counters (key : String) (q0 : Progress) (cbs : List Int) :
    (cbs.foldl (mgrApplyCb key) q0).completedFiles = q0.completedFiles
    ∧ (cbs.foldl (mgrApplyCb key) q0).failedFiles = q0.failedFiles
    ∧ (cbs.foldl (mgrApplyCb key) q0).totalFiles = q0.totalFiles := by
  induction cbs generalizing q0 with
  | nil => exact ⟨rfl, rfl, rfl⟩
  | cons c cs ih => simpa [mgrApplyCb] using ih (mgrApplyCb key q0 c)

/-- C7: every progress-mutating step of every download operation preserves
`CompletedFiles + FailedFiles ≤ TotalFiles`.  First conjunct: in any
worker-pool session started by `initProgress`, after any prefix of any
admissible interleaving of worker critical sections (each dispatched job
reports exactly one terminal status, for a key of the session), the
inequality holds.  Second conjunct: every snapshot `Manager.DownloadFile`
publishes satisfies the inequality. -/
theorem claim7_progress_counter_invariant :
    (∀ (objects : List S3Object) (paths : String → String) (t t1 t2 : List PoolEvent),
        t = t1 ++ t2 →
        (terminalKeys t).Nodup →
        (∀ k ∈ terminalKeys t, k ∈ objects.map S3Object.key) →
        (runEvents (initProgress objects paths) t1).completedFiles
            + (runEvents (initProgress objects paths) t1).failedFiles
          ≤ (runEvents (initProgress objects paths) t1).totalFiles)
    ∧ (∀ (key localPath : String) (size : Int) (cbs : List Int)
          (res : Option (String × Bool)) (q : Progress),
        q ∈ managerDownloadFileStates key localPath size cbs res →
        q.completedFiles + q.failedFiles ≤ q.totalFiles) := by
  constructor
  · intro objects paths t t1 t2 ht hnd hsub
    rw [runEvents_counters, runEvents_totalFiles]
    have hnd1 : (terminalKeys t1).Nodup := by
      rw [ht, terminalKeys_append] at hnd
      exact hnd.of_append_left
    have hsub1 : terminalKeys t1 ⊆ objects.map S3Object.key := by
      intro k hk
      refine hsub k ?_
      rw [ht, terminalKeys_append]
      exact List.mem_append_left _ hk
    have hlen : (terminalKeys t1).length ≤ (objects.map S3Object.key).length :=
      (hnd1.subperm hsub1).length_le
    have hinit : (initProgress objects paths).completedFiles
        + (initProgress objects paths).failedFiles = 0 := rfl
    have htot : (initProgress objects paths).totalFiles = objects.length := rfl
    rw [List.length_map] at hlen
    omega
  · intro key localPath size cbs res q hq
    rw [managerDownloadFileStates, List.mem_append] at hq
    rcases hq with hq | hq
    · obtain ⟨h1, h2, h3⟩ := mgrScanl_counters key (mgrInit key localPath size) cbs q hq
      rw [h1, h2, h3]
      simp [mgrInit]
    · rw [List.mem_singleton] at hq
      subst hq
      obtain ⟨h1, h2, h3⟩ := mgrFoldl_counters key (mgrInit key localPath size) cbs
      have h1' : (cbs.foldl (mgrApplyCb key) (mgrInit key localPath size)).completedFiles = 0 := by
        rw [h1]; rfl
      have h2' : (cbs.foldl (mgrApplyCb key) (mgrInit key localPath size)).failedFiles = 0 := by
        rw [h2]; rfl
      have h3' : (cbs.foldl (mgrApplyCb key) (mgrInit key localPath size)).totalFiles = 1 := by
        rw [h3]; rfl
      rcases res with _ | ⟨e, ctxCancelled⟩
      · simp [mgrFinal, h2', h3']
      · by_cases hc : ctxCancelled <;> simp [mgrFinal, hc, h1', h2', h3']

/-- C7, witness. -/
theorem claim7_witness :
    (runEvents (initProgress [S3Object.mk "a" 1 "e"] (fun k => k))
        [PoolEvent.start "a"]).completedFiles
      + (runEvents (initProgress [S3Object.mk "a" 1 "e"] (fun k => k))
        [PoolEvent.start "a"]).failedFiles
      ≤ (runEvents (initProgress [S3Object.mk "a" 1 "e"] (fun k => k))
        [PoolEvent.start "a"]).totalFiles :=
  claim7_progress_counter_invariant.1 [S3Object.mk "a" 1 "e"] (fun k => k)
    [PoolEvent.start "a", PoolEvent.finishOk "a" 1] [PoolEvent.start "a"]
    [PoolEvent.finishOk "a" 1] rfl (by decide) (by decide)

theorem sumDownloaded_cons (e : String × FileProgress) (rest : List (String × FileProgress)) :
    sumDownloaded (e :: rest) = e.2.downloaded + sumDownloaded rest := by
  simp [sumDownloaded]

theorem sumDownloaded_updateFile_ge (files : List (String × FileProgress)) (k : String)
    (n : Int) (h : downloadedOf files k ≤ n) :
    sumDownloaded files
      ≤ sumDownloaded (updateFile files k (fun fp => { fp with downloaded := n })) := by
  induction files with
  | nil => simp [updateFile]
  | cons e rest ih =>
    by_cases he : e.1 = k
    · have hd : downloadedOf (e :: rest) k = e.2.downloaded := by
        simp [downloadedOf, lookupFP, he]
      rw [hd] at h
      rw [updateFile, if_pos he, sumDownloaded_cons, sumDownloaded_cons]
      exact add_le_add_right h _
    · have hd : downloadedOf (e :: rest) k = downloadedOf rest k := by
        simp [downloadedOf, lookupFP, he]
      rw [hd] at h
      rw [updateFile, if_neg he, sumDownloaded_cons, sumDownloaded_cons]
      exact add_le_add_left (ih h) _

/-- The byte-progress callback only ever reports a value at least as large
as the one already recorded for that key: bytes-so-far values from one
transfer are non-decreasing.  `ValidCallbacks p cbs` states this along the
whole callback sequence starting from state `p`. -/
def ValidCallbacks : Progress → List (String × Int) → Prop
  | _, [] => True
  | p, c :: rest =>
      downloadedOf p.files c.1 ≤ c.2
      ∧ ValidCallbacks (applyEvent p (.bytes c.1 c.2)) rest

/-- A sequence of byte-progress critical sections applied in order. -/
def runBytes (p : Progress) (cbs : List (String × Int)) : Progress :=
  cbs.foldl (fun q c => applyEvent q (.bytes c.1 c.2)) p

theorem bytes_step_mono (p : Progress) (k : String) (n : Int)
    (hinv : p.downloadedBytes = sumDownloaded p.files)
    (h : downloadedOf p.files k ≤ n) :
    p.downloadedBytes ≤ (applyEvent p (.bytes k n)).downloadedBytes := by
  rw [hinv]
  exact sumDownloaded_updateFile_ge p.files k n h

/-- C8: the aggregate `DownloadedBytes` is recomputed on every
byte-progress callback by summing all `FileProgress.Downloaded` entries
(first conjunct, never a delta added to a running total), and for any
sequence of callbacks in which each key's reported bytes-so-far value is
non-decreasing, the aggregate in successive snapshots is non-decreasing
(second conjunct). -/
theorem claim8_downloaded_bytes_monotone :
    (∀ (p : Progress) (k : String) (n : Int),
        (applyEvent p (.bytes k n)).downloadedBytes
          = sumDownloaded (applyEvent p (.bytes k n)).files)
    ∧ (∀ (cbs : List (String × Int)) (p : Progress),
        p.downloadedBytes = sumDownloaded p.files →
        ValidCallbacks p cbs →
        ∀ m : Nat,
          (runBytes p (cbs.take m)).downloadedBytes
            ≤ (runBytes p (cbs.take (m + 1))).downloadedBytes) := by
  constructor
  · intro p k n
    rfl
  · intro cbs
    induction cbs with
    | nil =>
      intro p hinv hv m
      simp [runBytes]
    | cons c rest ih =>
      intro p hinv hv m
      obtain ⟨h1, h2⟩ := hv
      cases m with
      | zero =>
        simpa [runBytes] using bytes_step_mono p c.1 c.2 hinv h1
      | succ m =>
        have hinv2 : (applyEvent p (.bytes c.1 c.2)).downloadedBytes
            = sumDownloaded (applyEvent p (.bytes c.1 c.2)).files := rfl
        simpa [runBytes, List.take_succ_cons] using
          ih (applyEvent p (.bytes c.1 c.2)) hinv2 h2 m

/-- C8, witness. -/
theorem claim8_witness :
    (runBytes (initProgress [S3Object.mk "a" 10 "e"] (fun k => k))
        ([(("a" : String), (5 : Int)), ("a", 7)].take 0)).downloadedBytes
      ≤ (runBytes (initProgress [S3Object.mk "a" 10 "e"] (fun k => k))
        ([(("a" : String), (5 : Int)), ("a", 7)].take 1)).downloadedBytes :=
  claim8_downloaded_bytes_monotone.2 [("a", 5), ("a", 7)]
    (initProgress [S3Object.mk "a" 10 "e"] (fun k => k)) rfl
    ⟨by decide, by decide, trivial⟩ 0

theorem lookupLocal_mapSetLocal_self (m : List (String × LocalFile)) (rel : String)
    (lf : LocalFile) :
    lookupLocal (mapSetLocal m rel lf) rel = some lf := by
  induction m with
  | nil => simp [mapSetLocal, lookupLocal]
  | cons e rest ih =>
    by_cases h : e.1 = rel
    · simp [mapSetLocal, lookupLocal, h]
    · simp [mapSetLocal, lookupLocal, h, ih]

theorem lookupLocal_mapSetLocal_ne (m : List (String × LocalFile)) (rel rel' : String)
    (lf : LocalFile) (h : rel' ≠ rel) :
    lookupLocal (mapSetLocal m rel lf) rel' = lookupLocal m rel' := by
  induction m with
  | nil => simp [mapSetLocal, lookupLocal, Ne.symm h]
  | cons e rest ih =>
    by_cases he : e.1 = rel
    · have h2 : rel ≠ rel' := Ne.symm h
      simp [mapSetLocal, lookupLocal, he, h2]
    · by_cases he' : e.1 = rel'
      · simp [mapSetLocal, lookupLocal, he, he', h]
      · simp [mapSetLocal, lookupLocal, he, he', ih]

theorem applyDownloads_cons (h : S3Object → String) (pfx : String)
    (locals : List (String × LocalFile)) (o : S3Object) (rest : List S3Object) :
    applyDownloads h pfx locals (o :: rest)
      = applyDownloads h pfx
          (mapSetLocal locals (trimPfx pfx o.key) (LocalFile.mk o.size (some (h o)))) rest := rfl

theorem lookupLocal_applyDownloads_notMem (h : S3Object → String) (pfx : String)
    (locals : List (String × LocalFile)) (objs : List S3Object) (rel : String)
    (hrel : rel ∉ objs.map (fun o => trimPfx pfx o.key)) :
    lookupLocal (applyDownloads h pfx locals objs) rel = lookupLocal locals rel := by
  induction objs generalizing locals with
  | nil => rfl
  | cons o rest ih =>
    rw [applyDownloads_cons]
    have h1 : rel ∉ rest.map (fun o => trimPfx pfx o.key) := by
      intro hmem
      exact hrel (by simp [List.mem_map] at hmem ⊢; tauto)
    have h2 : rel ≠ trimPfx pfx o.key := by
      intro heq
      exact hrel (by simp [heq])
    rw [ih _ h1]
    exact lookupLocal_mapSetLocal_ne locals (trimPfx pfx o.key) rel _ h2

theorem lookupLocal_applyDownloads_mem (h : S3Object → String) (pfx : String)
    (locals : List (String × LocalFile)) (objs : List S3Object) (obj : S3Object)
    (hmem : obj ∈ objs)
    (hnd : (objs.map (fun o => trimPfx pfx o.key)).Nodup) :
    lookupLocal (applyDownloads h pfx locals objs) (trimPfx pfx obj.key)
      = some (LocalFile.mk obj.size (some (h obj))) := by
  induction objs generalizing locals with
  | nil => cases hmem
  | cons o rest ih =>
    rw [applyDownloads_cons]
    rw [List.map_cons, List.nodup_cons] at hnd
    rcases List.mem_cons.mp hmem with rfl | hmem'
    · rw [lookupLocal_applyDownloads_notMem h pfx _ rest _ hnd.1]
      exact lookupLocal_mapSetLocal_self locals _ _
    · exact ih _ hmem' hnd.2

theorem classifyOne_congr (locals locals' : List (String × LocalFile)) (pfx : String)
    (obj : S3Object)
    (h : lookupLocal locals' (trimPfx pfx obj.key) = lookupLocal locals (trimPfx pfx obj.key)) :
    classifyOne locals' pfx obj = classifyOne locals pfx obj := by
  unfold classifyOne
  rw [h]

theorem second_compare_unchanged (locals : List (String × LocalFile)) (pfx : String)
    (objects : List S3Object) (h : S3Object → String)
    (hnd : (objects.map (fun o => trimPfx pfx o.key)).Nodup)
    (hh : ∀ o ∈ objects, strContains o.etag '-' = false → h o = o.etag)
    (obj : S3Object) (hmem : obj ∈ objects) :
    classifyOne (applyDownloads h pfx locals (compareFiles locals pfx objects).toDownload)
        pfx obj = .unchanged := by
  cases hc : classifyOne locals pfx obj with
  | needsTransfer =>
    have hmemdl : obj ∈ (compareFiles locals pfx objects).toDownload :=
      (mem_toDownload_iff locals pfx objects obj).mpr ⟨hmem, hc⟩
    have hnddl : ((compareFiles locals pfx objects).toDownload.map
        (fun o => trimPfx pfx o.key)).Nodup := by
      rw [compareFiles_toDownload]
      exact hnd.sublist (List.Sublist.map _ (List.filter_sublist objects))
    have hlook := lookupLocal_applyDownloads_mem h pfx locals
      (compareFiles locals pfx objects).toDownload obj hmemdl hnddl
    unfold classifyOne
    rw [hlook]
    by_cases hdash : strContains obj.etag '-' = true
    · simp [hdash]
    · have hdf : strContains obj.etag '-' = false := by simpa using hdash
      simp [hdf, hh obj hmem hdf]
  | unchanged =>
    have hnotmem : trimPfx pfx obj.key
        ∉ (compareFiles locals pfx objects).toDownload.map (fun o => trimPfx pfx o.key) := by
      intro hin
      rcases List.mem_map.mp hin with ⟨o2, ho2mem, ho2rel⟩
      have ho2 := (mem_toDownload_iff locals pfx objects o2).mp ho2mem
      have : o2 = obj :=
        List.inj_on_of_nodup_map hnd ho2.1 hmem ho2rel
      rw [this] at ho2
      rw [ho2.2] at hc
      exact Classification.noConfusion hc
    have hlook := lookupLocal_applyDownloads_notMem h pfx locals
      (compareFiles locals pfx objects).toDownload _ hnotmem
    rw [classifyOne_congr locals _ pfx obj hlook]
    exact hc

/-- C9: with every successful download leaving a local file of the remote
object's size whose MD5 is the object's true content hash (equal to the
ETag whenever the ETag is a single-part whole-object hash, i.e. contains
no `-`), running the comparison again after a sync — with no intervening
remote or local changes — yields an empty `ToDownload` set, and the
second `Sync` call returns `nil` immediately: no progress state is
initialized and no download jobs are run. -/
theorem claim9_sync_idempotent (locals : List (String × LocalFile)) (pfx localDir : String)
    (objects : List S3Object) (h : S3Object → String) (outcome : S3Object → JobOutcome)
    (cancelAfter : Option Nat)
    (hnd : (objects.map (fun o => trimPfx pfx o.key)).Nodup)
    (hh : ∀ o ∈ objects, strContains o.etag '-' = false → h o = o.etag) :
    (compareFiles (applyDownloads h pfx locals (compareFiles locals pfx objects).toDownload)
        pfx objects).toDownload = []
    ∧ syncRun (applyDownloads h pfx locals (compareFiles locals pfx objects).toDownload)
        pfx localDir objects outcome cancelAfter
      = SyncRun.mk none none [] := by
  have hempty : (compareFiles
      (applyDownloads h pfx locals (compareFiles locals pfx objects).toDownload)
      pfx objects).toDownload = [] := by
    rw [compareFiles_toDownload]
    rw [List.filter_eq_nil_iff]
    intro o hmem
    rw [second_compare_unchanged locals pfx objects h hnd hh o hmem]
    simp [isNeedsTransfer]
  refine ⟨hempty, ?_⟩
  rw [syncRun]
  simp [hempty]

/-- C9, witness. -/
theorem claim9_witness :
    (compareFiles (applyDownloads (fun o => if o.key = "p/a" then "h1" else "zz") "p/" []
        (compareFiles [] "p/" [S3Object.mk "p/a" 3 "h1", S3Object.mk "p/b" 4 "x-2"]).toDownload)
        "p/" [S3Object.mk "p/a" 3 "h1", S3Object.mk "p/b" 4 "x-2"]).toDownload = []
    ∧ syncRun (applyDownloads (fun o => if o.key = "p/a" then "h1" else "zz") "p/" []
        (compareFiles [] "p/" [S3Object.mk "p/a" 3 "h1", S3Object.mk "p/b" 4 "x-2"]).toDownload)
        "p/" "d" [S3Object.mk "p/a" 3 "h1", S3Object.mk "p/b" 4 "x-2"]
        (fun _ => JobOutcome.ok) none
      = SyncRun.mk none none [] :=
  claim9_sync_idempotent [] "p/" "d" [S3Object.mk "p/a" 3 "h1", S3Object.mk "p/b" 4 "x-2"]
    (fun o => if o.key = "p/a" then "h1" else "zz") (fun _ => JobOutcome.ok) none
    (by decide) (by decide)

end Stui
